import Mathlib

/-!
Shallow embedding of the Cody session manager (crates/cody/src/cody.rs and
crates/cody/src/request.rs): the session and auth state machines, the
registered-document table, the edit-reporting pipeline and the completion
entry points, together with proofs of the specification claims about them.

Outbound protocol traffic is modelled as an explicit list of messages, the
remote connection and the gpui task machinery as opaque task identifiers, and
the host buffer as its interface snapshot (content, version token, canonical
URI and language id).
-/

/-- A line/column position in UTF-16 coordinates, mirroring the host text
crate's PointUtf16 at the collaborator boundary. -/
structure PointU where
  row : Nat
  col : Nat
deriving DecidableEq

/-- Modelled from the spec: extent subtraction of the host buffer collaborator
(the versioned-rope text crate is outside the core sources). Two positions on
the same row differ by a column extent; otherwise the difference keeps the
larger position's column as extent column. -/
def pointSub (b a : PointU) : PointU :=
  if b.row = a.row then ⟨0, b.col - a.col⟩ else ⟨b.row - a.row, b.col⟩

/-- Modelled from the spec: extent addition of the host buffer collaborator.
Adding a same-row extent advances the column; adding a multi-row extent
advances the row and replaces the column. -/
def pointAdd (a d : PointU) : PointU :=
  if d.row = 0 then ⟨a.row, a.col + d.col⟩ else ⟨a.row + d.row, d.col⟩

/-- A read-only content snapshot of a host buffer: its text and its monotonic
version token (BufferSnapshot at the interface boundary). -/
structure Snapshot where
  text : String
  version : Nat
deriving DecidableEq

/-- One replace-range reported by the host diff-since operation
(edits_since over (PointUtf16, usize) coordinates): the old and new ranges of
the edit, as point plus character-offset pairs. -/
structure HostEdit where
  oldStartPt : PointU
  oldEndPt : PointU
  newStartPt : PointU
  newStartOff : Nat
  newEndOff : Nat
deriving DecidableEq

/-- lsp TextDocumentContentChangeEvent as built inside report_changes. -/
structure ContentChangeEvent where
  rangeStart : PointU
  rangeEnd : PointU
  text : String
deriving DecidableEq

/-- text_for_range on a snapshot, slicing by character offsets. -/
def textForRange (s : String) (a b : Nat) : String :=
  String.mk ((s.toList.drop a).take (b - a))

/-- The closure in RegisteredBuffer::report_changes that maps host edits to
content-change events: each range starts at the edit's position in the new
snapshot and extends by the old span's extent, and the text is the replacement
text read from the new snapshot. -/
def computeContentChanges (newSnap : Snapshot) (edits : List HostEdit) :
    List ContentChangeEvent :=
  edits.map fun e =>
    { rangeStart := e.newStartPt
      rangeEnd := pointAdd e.newStartPt (pointSub e.oldEndPt e.oldStartPt)
      text := textForRange newSnap.text e.newStartOff e.newEndOff }

/-- Outbound protocol messages (the requests and notifies of request.rs and
the lsp crate) observable in the embedding. -/
inductive Msg where
  | didOpen (uri : String) (content : String)
  | didOpenItem (uri : String) (languageId : String) (version : Int) (content : String)
  | didChange (uri : String) (content : String)
  | didClose (uri : String)
  | didSave (uri : String)
  | signInInitiate
  | signOutReq
  | notifyAccepted (uuid : String)
  | notifyRejected (uuids : List String)
  | getCompletions (cycling : Bool) (uri : String) (pos : PointU)
deriving DecidableEq

/-- A registered-document table entry (struct RegisteredBuffer): canonical
URI, language id, last-synchronized snapshot and the synced version counter. -/
structure RegisteredBuffer where
  uri : String
  language_id : String
  snapshot : Snapshot
  snapshot_version : Int
deriving DecidableEq

/-- request::PromptUserDeviceFlow. -/
structure PromptUserDeviceFlow where
  user_code : String
  verification_uri : String
deriving DecidableEq

/-- request::SignInStatus, the authentication status reported by the remote. -/
inductive RequestSignInStatus where
  | ok (user : Option String)
  | maybeOk (user : String)
  | alreadySignedIn (user : String)
  | notAuthorized (user : String)
  | notSignedIn
deriving DecidableEq

/-- The auth sub-state of a running session (enum SignInStatus); an in-flight
sign-in holds the optional device-flow prompt and the shared task handle,
modelled as a task identifier. -/
inductive SignInStatus where
  | authorized
  | unauthorized
  | signingIn (prompt : Option PromptUserDeviceFlow) (task : Nat)
  | signedOut
deriving DecidableEq

/-- struct RunningCodyServer, with the opaque connection omitted and the
registered-buffer map modelled as an association list keyed by entity id. -/
structure RunningCodyServer where
  sign_in_status : SignInStatus
  registered_buffers : List (Nat × RegisteredBuffer)
deriving DecidableEq

/-- enum CodyServer: the session lifecycle state. -/
inductive CodyServer where
  | disabled
  | starting (task : Nat)
  | error (msg : String)
  | running (server : RunningCodyServer)
deriving DecidableEq

/-- The error kinds produced by the guard accessors. -/
inductive CodyError where
  | stillStarting
  | disabled
  | startError (msg : String)
  | notAuthorized
deriving DecidableEq

/-- CodyServer::as_running. -/
def CodyServer.as_running : CodyServer → Except CodyError RunningCodyServer
  | .starting _ => .error .stillStarting
  | .disabled => .error .disabled
  | .error e => .error (.startError e)
  | .running server => .ok server

/-- CodyServer::as_authenticated. -/
def CodyServer.as_authenticated (s : CodyServer) : Except CodyError RunningCodyServer :=
  match s.as_running with
  | .error e => .error e
  | .ok server =>
    match server.sign_in_status with
    | .authorized => .ok server
    | _ => .error .notAuthorized

/-- A host buffer as seen through the collaborator interface: stable entity
id, weak-handle liveness, the canonical URI and language id that
uri_for_buffer and id_for_language would compute, and the current content
snapshot. -/
structure Buffer where
  id : Nat
  alive : Bool
  uri : String
  language_id : String
  text : String
  version : Nat
deriving DecidableEq

/-- struct Cody: the coordinator state, holding the session state and the
weak known-document set. -/
structure Cody where
  server : CodyServer
  buffers : List Buffer
deriving DecidableEq

/-- HashMap::get on the registered-buffer table. -/
def lookupBuf (k : Nat) : List (Nat × RegisteredBuffer) → Option RegisteredBuffer
  | [] => none
  | e :: l => if e.1 = k then some e.2 else lookupBuf k l

/-- HashMap::remove on the registered-buffer table. -/
def removeBuf (k : Nat) (l : List (Nat × RegisteredBuffer)) : List (Nat × RegisteredBuffer) :=
  l.filter fun e => e.1 != k

/-- In-place mutation through HashMap::get_mut on the registered-buffer table. -/
def updateBuf (k : Nat) (v : RegisteredBuffer) (l : List (Nat × RegisteredBuffer)) :
    List (Nat × RegisteredBuffer) :=
  l.map fun e => if e.1 = k then (k, v) else e

/-- Observer: the registered-document table of the current session ([] when
the session is not running). -/
def Cody.registeredList (c : Cody) : List (Nat × RegisteredBuffer) :=
  match c.server with
  | .running rs => rs.registered_buffers
  | _ => []

/-- Observer: the auth state of the current session. -/
def Cody.authStatus (c : Cody) : Option SignInStatus :=
  match c.server with
  | .running rs => some rs.sign_in_status
  | _ => none

/-- HashSet::insert of a weak buffer handle into the known-document set. -/
def insertKnown (b : Buffer) (known : List Buffer) : List Buffer :=
  if known.any fun x => x.id == b.id then known else known ++ [b]

/-- The table entry built by the or_insert_with closure in register_buffer:
the buffer's current snapshot at synced version 0. -/
def freshRB (b : Buffer) : RegisteredBuffer :=
  { uri := b.uri
    language_id := b.language_id
    snapshot := { text := b.text, version := b.version }
    snapshot_version := 0 }

/-- Cody::register_buffer: unconditionally record the weak handle in the
known-document set; then, only when running and authorized and the buffer is
not already registered, create the table entry at version 0 and send the open
notification with the full current content. -/
def register_buffer (c : Cody) (b : Buffer) : Cody × List Msg :=
  let c := { c with buffers := insertKnown b c.buffers }
  match c.server with
  | .running rs =>
    match rs.sign_in_status with
    | .authorized =>
      match lookupBuf b.id rs.registered_buffers with
      | some _ => (c, [])
      | none =>
        let rs2 := { rs with registered_buffers := rs.registered_buffers ++ [(b.id, freshRB b)] }
        ({ c with server := .running rs2 }, [Msg.didOpen b.uri b.text])
    | _ => (c, [])
  | _ => (c, [])

/-- Cody::unregister_buffer: when running, remove the table entry if present
and send a close notification carrying its last-known URI. -/
def unregister_buffer (c : Cody) (bufId : Nat) : Cody × List Msg :=
  match c.server with
  | .running rs =>
    match lookupBuf bufId rs.registered_buffers with
    | some rb =>
      let rs2 := { rs with registered_buffers := removeBuf bufId rs.registered_buffers }
      ({ c with server := .running rs2 }, [Msg.didClose rb.uri])
    | none => (c, [])
  | _ => (c, [])

/-- The unregistration sweep in update_sign_in_status: unregister every
known buffer id in order. -/
def unregisterAll : Cody → List Nat → Cody × List Msg
  | c, [] => (c, [])
  | c, k :: ks =>
    let p := unregister_buffer c k
    let q := unregisterAll p.1 ks
    (q.1, p.2 ++ q.2)

/-- The registration sweep in update_sign_in_status: register every known
buffer whose weak handle still upgrades. -/
def registerAll : Cody → List Buffer → Cody × List Msg
  | c, [] => (c, [])
  | c, b :: bs =>
    if b.alive then
      let p := register_buffer c b
      let q := registerAll p.1 bs
      (q.1, p.2 ++ q.2)
    else
      registerAll c bs

/-- Cody::update_sign_in_status: garbage-collect dead weak handles, and when
running, map the remote status onto the auth state and run the matching
re-sync sweep. -/
def update_sign_in_status (c : Cody) (lsp_status : RequestSignInStatus) : Cody × List Msg :=
  let c := { c with buffers := c.buffers.filter fun b => b.alive }
  match c.server with
  | .running rs =>
    match lsp_status with
    | .ok (some _) | .maybeOk _ | .alreadySignedIn _ =>
      let c := { c with server := .running { rs with sign_in_status := .authorized } }
      registerAll c c.buffers
    | .notAuthorized _ =>
      let c := { c with server := .running { rs with sign_in_status := .unauthorized } }
      unregisterAll c (c.buffers.map fun b => b.id)
    | .ok none | .notSignedIn =>
      let c := { c with server := .running { rs with sign_in_status := .signedOut } }
      unregisterAll c (c.buffers.map fun b => b.id)
  | _ => (c, [])

/-- The value Cody::sign_in resolves to. -/
inductive SignInOutcome where
  | immediateOk
  | task (id : Nat)
  | notStarted
deriving DecidableEq

/-- Cody::sign_in: when authorized, resolve immediately; when a sign-in is
already in flight, share its task; otherwise create the single-flight task
(which issues one begin-sign-in request) and enter SigningIn. -/
def sign_in (c : Cody) (freshTask : Nat) : Cody × List Msg × SignInOutcome :=
  match c.server with
  | .running rs =>
    match rs.sign_in_status with
    | .authorized => (c, [], .immediateOk)
    | .signingIn _ t => (c, [], .task t)
    | .signedOut | .unauthorized =>
      ({ c with server := .running { rs with sign_in_status := .signingIn none freshTask } },
       [Msg.signInInitiate], .task freshTask)
  | _ => (c, [], .notStarted)

/-- Cody::sign_out: eagerly apply the signed-out transition (sweeping closed
every registered document) before issuing the remote sign-out request. -/
def sign_out (c : Cody) : Cody × List Msg :=
  let p := update_sign_in_status c .notSignedIn
  match p.1.server with
  | .running _ => (p.1, p.2 ++ [Msg.signOutReq])
  | _ => (p.1, p.2)

/-- The observable outcome of one run of the report_changes pipeline: the
coordinator state afterwards, the successfully transmitted messages, and the
(version, snapshot) pair delivered to the waiters (none when the guarded
stage bailed out). -/
structure ReportOutcome where
  cody : Cody
  sent : List Msg
  result : Option (Int × Snapshot)
deriving DecidableEq

/-- RegisteredBuffer::report_changes, for the entry rb registered under bufId.
If the buffer's version token equals the synced snapshot's, resolve
immediately. Otherwise the queued task re-checks the guards (session
authorized, buffer still registered), computes the content changes from the
host edits, and if they are non-empty increments the synced version, replaces
the snapshot and sends one change notification carrying the full new content
keyed by URI; sendOk records whether that transmission succeeds (the source
ignores the transmission error via log_err). -/
def report_changes (c : Cody) (rb : RegisteredBuffer) (bufId : Nat)
    (newSnap : Snapshot) (hostEdits : List HostEdit) (sendOk : Bool) : ReportOutcome :=
  if newSnap.version = rb.snapshot.version then
    { cody := c, sent := [], result := some (rb.snapshot_version, rb.snapshot) }
  else
    match c.server.as_authenticated with
    | .error _ => { cody := c, sent := [], result := none }
    | .ok rs =>
      match lookupBuf bufId rs.registered_buffers with
      | none => { cody := c, sent := [], result := none }
      | some rbNow =>
        let content_changes := computeContentChanges newSnap hostEdits
        if content_changes.isEmpty then
          { cody := c, sent := [], result := some (rbNow.snapshot_version, rbNow.snapshot) }
        else
          let rbNew : RegisteredBuffer :=
            { rbNow with snapshot_version := rbNow.snapshot_version + 1, snapshot := newSnap }
          let rs2 := { rs with registered_buffers := updateBuf bufId rbNew rs.registered_buffers }
          { cody := { c with server := .running rs2 }
            sent := if sendOk then [Msg.didChange rbNew.uri newSnap.text] else []
            result := some (rbNew.snapshot_version, rbNew.snapshot) }

/-- language::Event, restricted to the variants handle_buffer_event matches. -/
inductive BufferEvent where
  | edited
  | saved
  | fileHandleChanged
  | languageChanged
  | other
deriving DecidableEq

/-- Cody::handle_buffer_event: dispatch a host buffer event for a registered
buffer. A rename or language change that alters the canonical identity sends
close for the old identity immediately followed by open for the new identity
(full synced content at the current synced version) and updates the entry in
place; an identity check that finds no change sends nothing. -/
def handle_buffer_event (c : Cody) (b : Buffer) (ev : BufferEvent)
    (hostEdits : List HostEdit) (sendOk : Bool) : Cody × List Msg :=
  match c.server with
  | .running rs =>
    match lookupBuf b.id rs.registered_buffers with
    | none => (c, [])
    | some rb =>
      match ev with
      | .edited =>
        let o := report_changes c rb b.id { text := b.text, version := b.version } hostEdits sendOk
        (o.cody, o.sent)
      | .saved => (c, [Msg.didSave rb.uri])
      | .fileHandleChanged | .languageChanged =>
        if b.uri != rb.uri || b.language_id != rb.language_id then
          let rbNew := { rb with uri := b.uri, language_id := b.language_id }
          let rs2 := { rs with registered_buffers := updateBuf b.id rbNew rs.registered_buffers }
          ({ c with server := .running rs2 },
           [Msg.didClose rb.uri,
            Msg.didOpenItem b.uri b.language_id rb.snapshot_version rb.snapshot.text])
        else (c, [])
      | .other => (c, [])
  | _ => (c, [])

/-- pub struct Completion: the ephemeral completion value handed to
accept/discard, with the anchor range modelled as offsets. -/
structure Completion where
  uuid : String
  rangeStart : Nat
  rangeEnd : Nat
  text : String
deriving DecidableEq

/-- Cody::accept_completion: guarded by as_authenticated; on success send the
accepted-telemetry message keyed by the completion id; local state untouched. -/
def accept_completion (c : Cody) (comp : Completion) : Cody × List Msg × Option CodyError :=
  match c.server.as_authenticated with
  | .error e => (c, [], some e)
  | .ok _ => (c, [Msg.notifyAccepted comp.uuid], none)

/-- Cody::discard_completions: guarded by as_authenticated; on success send
the rejected-telemetry message keyed by all completion ids; local state
untouched. -/
def discard_completions (c : Cody) (comps : List Completion) : Cody × List Msg × Option CodyError :=
  match c.server.as_authenticated with
  | .error e => (c, [], some e)
  | .ok _ => (c, [Msg.notifyRejected (comps.map fun x => x.uuid)], none)

/-- Cody::request_completions: register the buffer first (which always records
it in the known-document set), then guard on as_authenticated; on success
synchronize via report_changes and issue the completion request for the
registered URI. The cycling flag selects which of the two remote operations
is invoked. -/
def request_completions (c : Cody) (cycling : Bool) (b : Buffer) (pos : PointU)
    (hostEdits : List HostEdit) (sendOk : Bool) : Cody × List Msg × Option CodyError :=
  let p := register_buffer c b
  match p.1.server.as_authenticated with
  | .error e => (p.1, p.2, some e)
  | .ok rs =>
    match lookupBuf b.id rs.registered_buffers with
    | none => (p.1, p.2, none)
    | some rb =>
      let o := report_changes p.1 rb b.id { text := b.text, version := b.version } hostEdits sendOk
      (o.cody, p.2 ++ o.sent ++ [Msg.getCompletions cycling rb.uri pos], none)

/-- Cody::completions, the primary completion flavor. -/
def completions (c : Cody) (b : Buffer) (pos : PointU)
    (hostEdits : List HostEdit) (sendOk : Bool) : Cody × List Msg × Option CodyError :=
  request_completions c false b pos hostEdits sendOk

/-- Cody::completions_cycling, the alternate completion flavor. -/
def completions_cycling (c : Cody) (b : Buffer) (pos : PointU)
    (hostEdits : List HostEdit) (sendOk : Bool) : Cody × List Msg × Option CodyError :=
  request_completions c true b pos hostEdits sendOk

/-- The sign-in status hard-coded by start_language_server on startup
success (request::SignInStatus::Ok with user "pjlast"). -/
def startupSignInStatus : RequestSignInStatus := .ok (some "pjlast")

/-- The completion handler of the startup task in start_language_server: on
success install Running with auth SignedOut and an empty table, then apply the
hard-coded sign-in status; on failure install the Error state carrying the
message. -/
def start_language_server_finish (c : Cody) (res : Except String Unit) : Cody × List Msg :=
  match res with
  | .ok _ =>
    update_sign_in_status
      { c with server := .running { sign_in_status := .signedOut, registered_buffers := [] } }
      startupSignInStatus
  | .error msg => ({ c with server := .error msg }, [])

/-- Cody::enable_or_disable_cody, run on every settings change: when enabled,
start only from Disabled (an Error state is left untouched); when disabled,
drop to Disabled from any state. -/
def enable_or_disable_cody (c : Cody) (enabled : Bool) (freshTask : Nat) : Cody :=
  if enabled then
    match c.server with
    | .disabled => { c with server := .starting freshTask }
    | _ => c
  else { c with server := .disabled }

/-- Cody::reinstall: the explicit retry, entering Starting from any state. -/
def reinstall (c : Cody) (freshTask : Nat) : Cody :=
  { c with server := .starting freshTask }

/-! ## Basic facts about the table operations and guard accessors -/

theorem lookupBuf_cons (k : Nat) (e : Nat × RegisteredBuffer) (l : List (Nat × RegisteredBuffer)) :
    lookupBuf k (e :: l) = if e.1 = k then some e.2 else lookupBuf k l := rfl

theorem lookupBuf_append (k : Nat) (l1 l2 : List (Nat × RegisteredBuffer)) :
    lookupBuf k (l1 ++ l2) =
      match lookupBuf k l1 with
      | some v => some v
      | none => lookupBuf k l2 := by
  induction l1 with
  | nil => simp [lookupBuf]
  | cons e t ih =>
    by_cases h : e.1 = k <;> simp [lookupBuf, h, ih]

theorem lookupBuf_isSome_iff (k : Nat) (l : List (Nat × RegisteredBuffer)) :
    (lookupBuf k l).isSome = true ↔ k ∈ l.map Prod.fst := by
  induction l with
  | nil => simp [lookupBuf]
  | cons e t ih =>
    rw [lookupBuf_cons]
    by_cases h : e.1 = k
    · simp [h]
    · rw [if_neg h, List.map_cons, List.mem_cons, ih]
      constructor
      · exact fun hm => Or.inr hm
      · intro hor
        rcases hor with h1 | h2
        · exact absurd h1.symm h
        · exact h2

theorem removeBuf_cons (k : Nat) (e : Nat × RegisteredBuffer) (l : List (Nat × RegisteredBuffer)) :
    removeBuf k (e :: l) = if e.1 = k then removeBuf k l else e :: removeBuf k l := by
  by_cases h : e.1 = k <;> simp [removeBuf, List.filter_cons, h]

theorem removeBuf_of_not_mem (k : Nat) (l : List (Nat × RegisteredBuffer))
    (h : k ∉ l.map Prod.fst) : removeBuf k l = l := by
  induction l with
  | nil => rfl
  | cons e t ih =>
    simp only [List.map_cons, List.mem_cons] at h
    push_neg at h
    rw [removeBuf_cons, if_neg (fun he => h.1 he.symm), ih h.2]

theorem mem_keys_removeBuf (k m : Nat) (l : List (Nat × RegisteredBuffer))
    (h : m ∈ (removeBuf k l).map Prod.fst) : m ∈ l.map Prod.fst ∧ m ≠ k := by
  induction l with
  | nil => simp [removeBuf] at h
  | cons e t ih =>
    rw [removeBuf_cons] at h
    by_cases he : e.1 = k
    · rw [if_pos he] at h
      rcases ih h with ⟨h1, h2⟩
      exact ⟨by simp [h1], h2⟩
    · rw [if_neg he] at h
      simp only [List.map_cons, List.mem_cons] at h
      rcases h with h1 | h2
      · refine ⟨by simp [h1], ?_⟩
        rw [h1]; exact fun hk => he hk
      · rcases ih h2 with ⟨h3, h4⟩
        exact ⟨by simp [h3], h4⟩

theorem perm_cons_removeBuf (k : Nat) (v : RegisteredBuffer) :
    ∀ l : List (Nat × RegisteredBuffer), (l.map Prod.fst).Nodup →
      lookupBuf k l = some v → l.Perm ((k, v) :: removeBuf k l) := by
  intro l
  induction l with
  | nil => intro _ h; simp [lookupBuf] at h
  | cons e t ih =>
    intro hnd hl
    obtain ⟨k1, v1⟩ := e
    rw [lookupBuf_cons] at hl
    simp only [List.map_cons, List.nodup_cons] at hnd
    by_cases h : k1 = k
    · subst h
      rw [if_pos rfl] at hl
      obtain rfl : v1 = v := by injection hl
      rw [removeBuf_cons, if_pos rfl, removeBuf_of_not_mem k1 t hnd.1]
    · rw [if_neg h] at hl
      have hstep := ih hnd.2 hl
      rw [removeBuf_cons, if_neg h]
      exact (hstep.cons (k1, v1)).trans (List.Perm.swap (k, v) (k1, v1) (removeBuf k t))

theorem lookupBuf_updateBuf_self (k : Nat) (v : RegisteredBuffer) :
    ∀ l : List (Nat × RegisteredBuffer),
      lookupBuf k (updateBuf k v l) = (lookupBuf k l).map fun _ => v := by
  intro l
  induction l with
  | nil => rfl
  | cons e t ih =>
    have ih2 : lookupBuf k (List.map (fun e => if e.1 = k then (k, v) else e) t)
        = (lookupBuf k t).map fun _ => v := by simpa [updateBuf] using ih
    by_cases h : e.1 = k
    · simp [updateBuf, lookupBuf, h]
    · simp [updateBuf, lookupBuf, h, ih2]

theorem lookupBuf_updateBuf_ne (k j : Nat) (v : RegisteredBuffer) (hne : j ≠ k) :
    ∀ l : List (Nat × RegisteredBuffer),
      lookupBuf j (updateBuf k v l) = lookupBuf j l := by
  intro l
  induction l with
  | nil => rfl
  | cons e t ih =>
    have ih2 : lookupBuf j (List.map (fun e => if e.1 = k then (k, v) else e) t)
        = lookupBuf j t := by simpa [updateBuf] using ih
    by_cases h : e.1 = k
    · simp [updateBuf, lookupBuf, h, Ne.symm hne, ih2]
    · simp [updateBuf, lookupBuf, h, ih2]

theorem as_running_ok_iff (s : CodyServer) (rs : RunningCodyServer) :
    s.as_running = .ok rs ↔ s = .running rs := by
  cases s <;> simp [CodyServer.as_running]

theorem as_authenticated_ok_iff (s : CodyServer) (rs : RunningCodyServer) :
    s.as_authenticated = .ok rs ↔ (s = .running rs ∧ rs.sign_in_status = .authorized) := by
  constructor
  · intro h
    cases s with
    | running r =>
      cases hst : r.sign_in_status with
      | authorized =>
        have hr : r = rs := by
          simp [CodyServer.as_authenticated, CodyServer.as_running, hst] at h
          exact h
        subst hr
        exact ⟨rfl, hst⟩
      | unauthorized => simp [CodyServer.as_authenticated, CodyServer.as_running, hst] at h
      | signingIn p t => simp [CodyServer.as_authenticated, CodyServer.as_running, hst] at h
      | signedOut => simp [CodyServer.as_authenticated, CodyServer.as_running, hst] at h
    | disabled => simp [CodyServer.as_authenticated, CodyServer.as_running] at h
    | starting t => simp [CodyServer.as_authenticated, CodyServer.as_running] at h
    | error e => simp [CodyServer.as_authenticated, CodyServer.as_running] at h
  · rintro ⟨rfl, hst⟩
    simp [CodyServer.as_authenticated, CodyServer.as_running, hst]

theorem as_authenticated_error_of_not (s : CodyServer)
    (h : ∀ rs : RunningCodyServer, ¬(s = .running rs ∧ rs.sign_in_status = .authorized)) :
    ∃ e, s.as_authenticated = .error e := by
  cases hA : s.as_authenticated with
  | error e => exact ⟨e, rfl⟩
  | ok rs => exact absurd ((as_authenticated_ok_iff s rs).mp hA) (h rs)

/-! ## The re-sync sweeps -/

theorem unregisterAll_spec :
    ∀ (ids : List Nat) (c : Cody) (rs : RunningCodyServer),
      c.server = .running rs →
      (rs.registered_buffers.map Prod.fst).Nodup →
      (∀ k ∈ rs.registered_buffers.map Prod.fst, k ∈ ids) →
      (unregisterAll c ids).1 = ⟨.running ⟨rs.sign_in_status, []⟩, c.buffers⟩
        ∧ (unregisterAll c ids).2.Perm
            (rs.registered_buffers.map fun e => Msg.didClose e.2.uri) := by
  intro ids
  induction ids with
  | nil =>
    intro c rs hc hnd hsub
    have hempty : rs.registered_buffers = [] := by
      cases hreg : rs.registered_buffers with
      | nil => rfl
      | cons e t =>
        exfalso
        have hmem : e.1 ∈ rs.registered_buffers.map Prod.fst := by rw [hreg]; simp
        exact absurd (hsub _ hmem) (List.not_mem_nil _)
    constructor
    · show c = _
      obtain ⟨srv, bufs⟩ := c
      obtain ⟨st, regs⟩ := rs
      simp only at hc hempty
      subst hc
      subst hempty
      rfl
    · simp [unregisterAll, hempty]
  | cons k ks ih =>
    intro c rs hc hnd hsub
    cases hlk : lookupBuf k rs.registered_buffers with
    | none =>
      have hu : unregister_buffer c k = (c, []) := by
        simp [unregister_buffer, hc, hlk]
      have hknot : k ∉ rs.registered_buffers.map Prod.fst := by
        intro hmem
        have hs := (lookupBuf_isSome_iff k rs.registered_buffers).mpr hmem
        rw [hlk] at hs
        cases hs
      have hsub2 : ∀ m ∈ rs.registered_buffers.map Prod.fst, m ∈ ks := by
        intro m hm
        rcases List.mem_cons.mp (hsub m hm) with h1 | h2
        · exact absurd (h1 ▸ hm) hknot
        · exact h2
      have h2 := ih c rs hc hnd hsub2
      simpa [unregisterAll, hu] using h2
    | some rb =>
      have hu : unregister_buffer c k =
          ({ c with server := .running ⟨rs.sign_in_status, removeBuf k rs.registered_buffers⟩ },
           [Msg.didClose rb.uri]) := by
        simp [unregister_buffer, hc, hlk]
      have hnd2 : ((removeBuf k rs.registered_buffers).map Prod.fst).Nodup :=
        hnd.sublist ((List.filter_sublist _).map Prod.fst)
      have hsub2 : ∀ m ∈ (removeBuf k rs.registered_buffers).map Prod.fst, m ∈ ks := by
        intro m hm
        rcases mem_keys_removeBuf k m _ hm with ⟨hmem, hne⟩
        rcases List.mem_cons.mp (hsub m hmem) with h1 | h2
        · exact absurd h1 hne
        · exact h2
      have h2 := ih ({ c with server := .running ⟨rs.sign_in_status, removeBuf k rs.registered_buffers⟩ })
        ⟨rs.sign_in_status, removeBuf k rs.registered_buffers⟩ rfl hnd2 hsub2
      have hperm0 : rs.registered_buffers.Perm ((k, rb) :: removeBuf k rs.registered_buffers) :=
        perm_cons_removeBuf k rb _ hnd hlk
      constructor
      · simpa [unregisterAll, hu] using h2.1
      · have hmap := hperm0.map fun e => Msg.didClose e.2.uri
        simp only [List.map_cons] at hmap
        have hstep := (h2.2.cons (Msg.didClose rb.uri)).trans hmap.symm
        simpa [unregisterAll, hu] using hstep

theorem registerAll_spec :
    ∀ (bs : List Buffer) (c : Cody) (rs : RunningCodyServer),
      c.server = .running rs →
      rs.sign_in_status = .authorized →
      (∀ b ∈ bs, b.alive = true) →
      (∀ b ∈ bs, lookupBuf b.id rs.registered_buffers = none) →
      (bs.map Buffer.id).Nodup →
      (registerAll c bs).1.server =
          .running ⟨.authorized, rs.registered_buffers ++ bs.map fun b => (b.id, freshRB b)⟩
        ∧ (registerAll c bs).2 = bs.map fun b => Msg.didOpen b.uri b.text := by
  intro bs
  induction bs with
  | nil =>
    intro c rs hc hauth _ _ _
    obtain ⟨st, regs⟩ := rs
    simp only at hauth
    subst hauth
    exact ⟨by simpa [registerAll] using hc, rfl⟩
  | cons b bs ih =>
    intro c rs hc hauth halive hfresh hnd
    obtain ⟨st, regs⟩ := rs
    simp only at hauth
    subst hauth
    simp only at hfresh hc
    have hb : b.alive = true := halive b (by simp)
    have hfb : lookupBuf b.id regs = none := hfresh b (by simp)
    simp only [List.map_cons, List.nodup_cons] at hnd
    have hreg : register_buffer c b =
        (⟨.running ⟨.authorized, regs ++ [(b.id, freshRB b)]⟩, insertKnown b c.buffers⟩,
         [Msg.didOpen b.uri b.text]) := by
      simp [register_buffer, hc, hfb]
    have hfresh2 : ∀ x ∈ bs, lookupBuf x.id (regs ++ [(b.id, freshRB b)]) = none := by
      intro x hx
      rw [lookupBuf_append, hfresh x (by simp [hx])]
      have hxne : b.id ≠ x.id := by
        intro he
        exact hnd.1 (he ▸ List.mem_map_of_mem Buffer.id hx)
      simp [lookupBuf, hxne]
    have h2 := ih (⟨.running ⟨.authorized, regs ++ [(b.id, freshRB b)]⟩, insertKnown b c.buffers⟩)
      ⟨.authorized, regs ++ [(b.id, freshRB b)]⟩ rfl rfl
      (fun x hx => halive x (by simp [hx])) hfresh2 hnd.2
    constructor
    · have hgoal1 : (registerAll c (b :: bs)).1
          = (registerAll (⟨.running ⟨.authorized, regs ++ [(b.id, freshRB b)]⟩, insertKnown b c.buffers⟩) bs).1 := by
        simp [registerAll, hb, hreg]
      rw [hgoal1, h2.1]
      simp [List.append_assoc]
    · have hgoal2 : (registerAll c (b :: bs)).2
          = [Msg.didOpen b.uri b.text]
            ++ (registerAll (⟨.running ⟨.authorized, regs ++ [(b.id, freshRB b)]⟩, insertKnown b c.buffers⟩) bs).2 := by
        simp [registerAll, hb, hreg]
      rw [hgoal2, h2.2]
      simp

theorem sweep_close_core (bufs : List Buffer) (regs : List (Nat × RegisteredBuffer))
    (X : SignInStatus)
    (hnd : (regs.map Prod.fst).Nodup)
    (hcov : ∀ k ∈ regs.map Prod.fst, ∃ b ∈ bufs, b.id = k ∧ b.alive = true) :
    (unregisterAll ⟨.running ⟨X, regs⟩, bufs.filter fun b => b.alive⟩
        ((bufs.filter fun b => b.alive).map fun b => b.id)).1.registeredList = []
      ∧ (unregisterAll ⟨.running ⟨X, regs⟩, bufs.filter fun b => b.alive⟩
          ((bufs.filter fun b => b.alive).map fun b => b.id)).2.Perm
          (regs.map fun e => Msg.didClose e.2.uri) := by
  have hsub : ∀ k ∈ regs.map Prod.fst, k ∈ (bufs.filter fun b => b.alive).map fun b => b.id := by
    intro k hk
    rcases hcov k hk with ⟨b, hbmem, hbid, hbal⟩
    exact List.mem_map.mpr ⟨b, List.mem_filter.mpr ⟨hbmem, hbal⟩, hbid⟩
  have hspec := unregisterAll_spec ((bufs.filter fun b => b.alive).map fun b => b.id)
    ⟨.running ⟨X, regs⟩, bufs.filter fun b => b.alive⟩ ⟨X, regs⟩ rfl hnd hsub
  exact ⟨by rw [hspec.1]; rfl, hspec.2⟩

theorem sweep_open_core (bufs : List Buffer) (hnd : (bufs.map Buffer.id).Nodup) :
    (registerAll ⟨.running ⟨.authorized, []⟩, bufs.filter fun b => b.alive⟩
        (bufs.filter fun b => b.alive)).1.registeredList
      = (bufs.filter fun b => b.alive).map (fun b => (b.id, freshRB b))
    ∧ (registerAll ⟨.running ⟨.authorized, []⟩, bufs.filter fun b => b.alive⟩
        (bufs.filter fun b => b.alive)).2
      = ((bufs.filter fun b => b.alive).map fun b => Msg.didOpen b.uri b.text)
    ∧ (registerAll ⟨.running ⟨.authorized, []⟩, bufs.filter fun b => b.alive⟩
        (bufs.filter fun b => b.alive)).1.authStatus = some .authorized := by
  have hnd2 : ((bufs.filter fun b => b.alive).map Buffer.id).Nodup :=
    hnd.sublist ((List.filter_sublist _).map _)
  have hspec := registerAll_spec (bufs.filter fun b => b.alive)
    ⟨.running ⟨.authorized, []⟩, bufs.filter fun b => b.alive⟩ ⟨.authorized, []⟩ rfl rfl
    (fun b hb => (List.mem_filter.mp hb).2) (fun b _ => rfl) hnd2
  refine ⟨?_, hspec.2, ?_⟩
  · simp [Cody.registeredList, hspec.1]
  · simp [Cody.authStatus, hspec.1]

/-- C1: in a Running session, a transition of the auth state into Unauthorized
or SignedOut (an unfavorable sign-in result, or the eager sign-out path, both
of which funnel through update_sign_in_status) removes every entry from the
registered-document table, leaving it empty, and sends exactly one
close-document notification per previously registered document, carrying that
document's last-known URI; the order across documents is unconstrained, so the
notifications are a permutation of one close per table entry. The side
conditions are the system invariants that the table keys are distinct and
that every registered document is a live member of the known-document set. -/
theorem C1_sign_out_sweep (c : Cody) (rs : RunningCodyServer) (st : RequestSignInStatus)
    (hc : c.server = .running rs)
    (hst : st = .notSignedIn ∨ st = .ok none ∨ ∃ u, st = .notAuthorized u)
    (hnd : (rs.registered_buffers.map Prod.fst).Nodup)
    (hcov : ∀ k ∈ rs.registered_buffers.map Prod.fst,
       ∃ b ∈ c.buffers, b.id = k ∧ b.alive = true) :
    (update_sign_in_status c st).1.registeredList = []
      ∧ (update_sign_in_status c st).2.Perm
          (rs.registered_buffers.map fun e => Msg.didClose e.2.uri) := by
  rcases hst with h | h | ⟨u, h⟩ <;> subst h
  · have hunfold : update_sign_in_status c .notSignedIn
        = unregisterAll ⟨.running ⟨.signedOut, rs.registered_buffers⟩, c.buffers.filter fun b => b.alive⟩
            ((c.buffers.filter fun b => b.alive).map fun b => b.id) := by
      simp [update_sign_in_status, hc]
    rw [hunfold]
    exact sweep_close_core c.buffers rs.registered_buffers .signedOut hnd hcov
  · have hunfold : update_sign_in_status c (.ok none)
        = unregisterAll ⟨.running ⟨.signedOut, rs.registered_buffers⟩, c.buffers.filter fun b => b.alive⟩
            ((c.buffers.filter fun b => b.alive).map fun b => b.id) := by
      simp [update_sign_in_status, hc]
    rw [hunfold]
    exact sweep_close_core c.buffers rs.registered_buffers .signedOut hnd hcov
  · have hunfold : update_sign_in_status c (.notAuthorized u)
        = unregisterAll ⟨.running ⟨.unauthorized, rs.registered_buffers⟩, c.buffers.filter fun b => b.alive⟩
            ((c.buffers.filter fun b => b.alive).map fun b => b.id) := by
      simp [update_sign_in_status, hc]
    rw [hunfold]
    exact sweep_close_core c.buffers rs.registered_buffers .unauthorized hnd hcov

def c1rbA : RegisteredBuffer := ⟨"file:///a.txt", "plaintext", ⟨"aaa", 3⟩, 2⟩

def c1rbB : RegisteredBuffer := ⟨"file:///b.txt", "rust", ⟨"bbb", 5⟩, 1⟩

def c1bufA : Buffer := ⟨1, true, "file:///a.txt", "plaintext", "aaa", 3⟩

def c1bufB : Buffer := ⟨2, true, "file:///b.txt", "rust", "bbb", 5⟩

def c1state : Cody :=
  ⟨.running ⟨.authorized, [(1, c1rbA), (2, c1rbB)]⟩, [c1bufA, c1bufB]⟩

theorem C1_sign_out_sweep_witness :
    (c1state.server = .running ⟨.authorized, [(1, c1rbA), (2, c1rbB)]⟩
      ∧ ([(1, c1rbA), (2, c1rbB)].map Prod.fst).Nodup)
    ∧ ((update_sign_in_status c1state .notSignedIn).1.registeredList = []
      ∧ (update_sign_in_status c1state .notSignedIn).2.Perm
          ([(1, c1rbA), (2, c1rbB)].map fun e => Msg.didClose e.2.uri)) :=
  ⟨⟨rfl, by decide⟩,
   C1_sign_out_sweep c1state ⟨.authorized, [(1, c1rbA), (2, c1rbB)]⟩ .notSignedIn rfl
     (Or.inl rfl) (by decide) (by decide)⟩

/-- C2: in a Running session, a genuine transition of the auth state into
Authorized (so the table is empty beforehand: registrations only exist while
Authorized, and any transition out of Authorized sweeps them away) registers
every known document whose weak reference still resolves: one table entry is
created per such document with synced version 0, and one open-document
notification carrying the document's full current content is sent per
document, so M resolving known documents yield exactly M open notifications.
The open message of request.rs carries URI and content; the version-0 fact
lives in the created entry. -/
theorem C2_sign_in_sweep (c : Cody) (rs : RunningCodyServer) (st : RequestSignInStatus)
    (hc : c.server = .running rs)
    (hst : (∃ u, st = .ok (some u)) ∨ (∃ u, st = .maybeOk u) ∨ ∃ u, st = .alreadySignedIn u)
    (hempty : rs.registered_buffers = [])
    (hnd : (c.buffers.map Buffer.id).Nodup) :
    (update_sign_in_status c st).1.registeredList =
        (c.buffers.filter fun b => b.alive).map (fun b => (b.id, freshRB b))
      ∧ (update_sign_in_status c st).2 =
        (c.buffers.filter fun b => b.alive).map (fun b => Msg.didOpen b.uri b.text)
      ∧ ∀ e ∈ (update_sign_in_status c st).1.registeredList, e.2.snapshot_version = 0 := by
  have hcore := sweep_open_core c.buffers hnd
  have hmain : (update_sign_in_status c st).1.registeredList =
        (c.buffers.filter fun b => b.alive).map (fun b => (b.id, freshRB b))
      ∧ (update_sign_in_status c st).2 =
        (c.buffers.filter fun b => b.alive).map (fun b => Msg.didOpen b.uri b.text) := by
    rcases hst with ⟨u, h⟩ | ⟨u, h⟩ | ⟨u, h⟩ <;> subst h
    · have hunfold : update_sign_in_status c (.ok (some u))
          = registerAll ⟨.running ⟨.authorized, []⟩, c.buffers.filter fun b => b.alive⟩
              (c.buffers.filter fun b => b.alive) := by
        simp [update_sign_in_status, hc, hempty]
      rw [hunfold]
      exact ⟨hcore.1, hcore.2.1⟩
    · have hunfold : update_sign_in_status c (.maybeOk u)
          = registerAll ⟨.running ⟨.authorized, []⟩, c.buffers.filter fun b => b.alive⟩
              (c.buffers.filter fun b => b.alive) := by
        simp [update_sign_in_status, hc, hempty]
      rw [hunfold]
      exact ⟨hcore.1, hcore.2.1⟩
    · have hunfold : update_sign_in_status c (.alreadySignedIn u)
          = registerAll ⟨.running ⟨.authorized, []⟩, c.buffers.filter fun b => b.alive⟩
              (c.buffers.filter fun b => b.alive) := by
        simp [update_sign_in_status, hc, hempty]
      rw [hunfold]
      exact ⟨hcore.1, hcore.2.1⟩
  refine ⟨hmain.1, hmain.2, ?_⟩
  intro e he
  rw [hmain.1] at he
  rcases List.mem_map.mp he with ⟨b, _, rfl⟩
  rfl

def c2bufDead : Buffer := ⟨3, false, "file:///gone.txt", "plaintext", "zzz", 9⟩

def c2state : Cody :=
  ⟨.running ⟨.signedOut, []⟩, [c1bufA, c1bufB, c2bufDead]⟩

theorem C2_sign_in_sweep_witness :
    (c2state.server = .running ⟨.signedOut, []⟩
      ∧ (c2state.buffers.map Buffer.id).Nodup)
    ∧ ((update_sign_in_status c2state (.ok (some "pjlast"))).1.registeredList =
          [(1, freshRB c1bufA), (2, freshRB c1bufB)]
      ∧ (update_sign_in_status c2state (.ok (some "pjlast"))).2 =
          [Msg.didOpen "file:///a.txt" "aaa", Msg.didOpen "file:///b.txt" "bbb"]) := by
  have h := C2_sign_in_sweep c2state ⟨.signedOut, []⟩ (.ok (some "pjlast")) rfl
    (Or.inl ⟨"pjlast", rfl⟩) rfl (by decide)
  refine ⟨⟨rfl, by decide⟩, ?_, ?_⟩
  · rw [h.1]; decide
  · rw [h.2.1]; decide

/-- C6: for every session state other than Running (Disabled, Starting,
Error), the guard accessor as_running returns an error and never a server
handle; as_authenticated (the as_authorized guard) returns the running server
exactly when the session is Running and the auth state is Authorized, and
returns an error in every other case. -/
theorem C6_guard_accessors (s : CodyServer) (rs : RunningCodyServer) :
    (s.as_running = .ok rs ↔ s = .running rs)
    ∧ (s.as_authenticated = .ok rs ↔ s = .running rs ∧ rs.sign_in_status = .authorized)
    ∧ ((∀ r : RunningCodyServer, s ≠ .running r) → ∃ e, s.as_running = .error e)
    ∧ (∀ r : RunningCodyServer, s = .running r → r.sign_in_status ≠ .authorized →
        ∃ e, s.as_authenticated = .error e) := by
  refine ⟨as_running_ok_iff s rs, as_authenticated_ok_iff s rs, ?_, ?_⟩
  · intro h
    cases s with
    | running r => exact absurd rfl (h r)
    | disabled => exact ⟨.disabled, rfl⟩
    | starting t => exact ⟨.stillStarting, rfl⟩
    | error e => exact ⟨.startError e, rfl⟩
  · intro r hr hst
    subst hr
    cases hA : (CodyServer.running r).as_authenticated with
    | error e => exact ⟨e, rfl⟩
    | ok rs2 =>
      rcases (as_authenticated_ok_iff _ rs2).mp hA with ⟨heq, hauth⟩
      injection heq with heq
      rw [← heq] at hauth
      exact absurd hauth hst

theorem C6_guard_accessors_witness :
    (CodyServer.disabled.as_running = .ok ⟨.signedOut, []⟩
        ↔ CodyServer.disabled = .running ⟨.signedOut, []⟩)
      ∧ ∃ e, CodyServer.disabled.as_running = .error e := by
  have h := C6_guard_accessors .disabled ⟨.signedOut, []⟩
  exact ⟨h.1, h.2.2.1 (fun r hr => by cases hr)⟩

/-- C7: sign_in on a running session is idempotent when already Authorized
(immediate success, no remote request, state untouched); when a sign-in is
already in flight it returns the existing shared task without issuing a
second begin-sign-in request; and from SignedOut or Unauthorized the first
call issues exactly one begin-sign-in request and installs the shared task,
so a subsequent concurrent call observes that same single task and issues no
further request: all callers share one outcome. -/
theorem C7_sign_in_single_flight (c : Cody) (rs : RunningCodyServer) (fresh fresh2 : Nat)
    (hc : c.server = .running rs) :
    (rs.sign_in_status = .authorized → sign_in c fresh = (c, [], .immediateOk))
    ∧ (∀ p t, rs.sign_in_status = .signingIn p t → sign_in c fresh = (c, [], .task t))
    ∧ ((rs.sign_in_status = .signedOut ∨ rs.sign_in_status = .unauthorized) →
        (sign_in c fresh).2.1 = [Msg.signInInitiate]
          ∧ (sign_in c fresh).2.2 = .task fresh
          ∧ sign_in (sign_in c fresh).1 fresh2 = ((sign_in c fresh).1, [], .task fresh)) := by
  refine ⟨?_, ?_, ?_⟩
  · intro h
    simp [sign_in, hc, h]
  · intro p t h
    simp [sign_in, hc, h]
  · intro h
    have hfirst : sign_in c fresh =
        ({ c with server := .running ⟨.signingIn none fresh, rs.registered_buffers⟩ },
         [Msg.signInInitiate], .task fresh) := by
      rcases h with h | h <;> simp [sign_in, hc, h]
    rw [hfirst]
    exact ⟨rfl, rfl, by simp [sign_in]⟩

def c7state : Cody := ⟨.running ⟨.signedOut, []⟩, []⟩

theorem C7_sign_in_single_flight_witness :
    c7state.server = .running ⟨.signedOut, []⟩
    ∧ ((sign_in c7state 7).2.1 = [Msg.signInInitiate]
      ∧ (sign_in c7state 7).2.2 = .task 7
      ∧ sign_in (sign_in c7state 7).1 8 = ((sign_in c7state 7).1, [], .task 7)) :=
  ⟨rfl, (C7_sign_in_single_flight c7state ⟨.signedOut, []⟩ 7 8 rfl).2.2 (Or.inl rfl)⟩

/-- C3: for a registered document of an authorized running session, an edit
whose computed edit set is non-empty produces exactly one change notification
carrying the full new content keyed by the document's URI, and the version
delivered to the waiters is the prior synced version plus 1; an edit sequence
with no net content change (empty computed edit set) produces zero
notifications and leaves the synced version (and snapshot) unchanged. The
computed content-change event for a single host edit spans exactly the edited
region: it starts at the edit's position in the new snapshot and extends by
the old span's extent, carrying the replacement text. -/
theorem C3_diff_on_edit (c : Cody) (rs : RunningCodyServer) (rb : RegisteredBuffer)
    (bufId : Nat) (newSnap : Snapshot) (hostEdits : List HostEdit)
    (hc : c.server = .running rs)
    (hauth : rs.sign_in_status = .authorized)
    (hrb : lookupBuf bufId rs.registered_buffers = some rb)
    (hver : newSnap.version ≠ rb.snapshot.version) :
    (hostEdits ≠ [] →
        (report_changes c rb bufId newSnap hostEdits true).sent
            = [Msg.didChange rb.uri newSnap.text]
          ∧ (report_changes c rb bufId newSnap hostEdits true).result
            = some (rb.snapshot_version + 1, newSnap))
      ∧ (hostEdits = [] →
        (report_changes c rb bufId newSnap hostEdits true).sent = []
          ∧ (report_changes c rb bufId newSnap hostEdits true).result
            = some (rb.snapshot_version, rb.snapshot))
      ∧ (∀ e, hostEdits = [e] →
          computeContentChanges newSnap hostEdits =
            [⟨e.newStartPt, pointAdd e.newStartPt (pointSub e.oldEndPt e.oldStartPt),
              textForRange newSnap.text e.newStartOff e.newEndOff⟩]) := by
  have hA : c.server.as_authenticated = .ok rs := (as_authenticated_ok_iff _ _).mpr ⟨hc, hauth⟩
  refine ⟨?_, ?_, ?_⟩
  · intro hne
    have hempty : (computeContentChanges newSnap hostEdits).isEmpty = false := by
      cases hostEdits with
      | nil => exact absurd rfl hne
      | cons e t => rfl
    constructor <;> simp [report_changes, hver, hA, hrb, hempty]
  · intro he
    subst he
    constructor <;> simp [report_changes, hver, hA, hrb, computeContentChanges]
  · intro e he
    subst he
    rfl

def c3rb : RegisteredBuffer := ⟨"file:///a.txt", "plaintext", ⟨"Hello", 0⟩, 0⟩

def c3state : Cody := ⟨.running ⟨.authorized, [(1, c3rb)]⟩, []⟩

def c3edit : HostEdit := ⟨⟨0, 5⟩, ⟨0, 5⟩, ⟨0, 5⟩, 5, 11⟩

def c3snap : Snapshot := ⟨"Hello world", 1⟩

theorem C3_diff_on_edit_witness :
    ([c3edit] ≠ ([] : List HostEdit) ∧ c3snap.version ≠ c3rb.snapshot.version)
    ∧ ((report_changes c3state c3rb 1 c3snap [c3edit] true).sent
        = [Msg.didChange "file:///a.txt" "Hello world"]
      ∧ (report_changes c3state c3rb 1 c3snap [c3edit] true).result = some (1, c3snap)) := by
  have h := (C3_diff_on_edit c3state ⟨.authorized, [(1, c3rb)]⟩ c3rb 1 c3snap [c3edit]
    rfl rfl (by decide) (by decide)).1 (by decide)
  refine ⟨⟨by decide, by decide⟩, ?_, ?_⟩
  · rw [h.1]; decide
  · rw [h.2]; decide

def c4rb : RegisteredBuffer := ⟨"file:///c.txt", "plaintext", ⟨"Hello", 0⟩, 0⟩

def c4state : Cody := ⟨.running ⟨.authorized, [(4, c4rb)]⟩, []⟩

def c4edit : HostEdit := ⟨⟨0, 5⟩, ⟨0, 5⟩, ⟨0, 5⟩, 5, 11⟩

def c4snap : Snapshot := ⟨"Hello world", 1⟩

/-- C4 counterexample: with the change notification failing to transmit
(sendOk = false) the synced version is still incremented from 0 to 1: the
source increments snapshot_version and swaps the snapshot before the notify
call, whose error is swallowed by log_err, so a failed send does not leave
the previous synced version intact, and the version does not count
successfully transmitted notifications. -/
theorem C4_counterexample :
    (report_changes c4state c4rb 4 c4snap [c4edit] false).sent = []
      ∧ lookupBuf 4 (report_changes c4state c4rb 4 c4snap [c4edit] false).cody.registeredList
          = some ⟨"file:///c.txt", "plaintext", ⟨"Hello world", 1⟩, 1⟩
      ∧ c4rb.snapshot_version = 0 := by
  refine ⟨rfl, ?_, rfl⟩
  decide

/-- C4 amended: the synced version is monotonically non-decreasing across
report_changes, and it increments exactly once per non-empty computed edit
set — that is, once per attempted change notification — regardless of whether
the transmission succeeds; a failure of the guarded diff stage (session no
longer authorized, or the buffer no longer registered) and the no-op fast
path leave the state, hence the previous synced version, intact. -/
theorem C4_version_monotonic (c : Cody) (rb : RegisteredBuffer) (bufId : Nat)
    (newSnap : Snapshot) (hostEdits : List HostEdit) (sendOk : Bool) :
    (∀ k v, lookupBuf k c.registeredList = some v →
        ∃ v', lookupBuf k (report_changes c rb bufId newSnap hostEdits sendOk).cody.registeredList
            = some v' ∧ v.snapshot_version ≤ v'.snapshot_version)
    ∧ (∀ rs, c.server = .running rs → rs.sign_in_status = .authorized →
        lookupBuf bufId rs.registered_buffers = some rb →
        newSnap.version ≠ rb.snapshot.version →
        ((hostEdits = [] → (report_changes c rb bufId newSnap hostEdits sendOk).cody = c)
          ∧ (hostEdits ≠ [] →
              lookupBuf bufId
                  (report_changes c rb bufId newSnap hostEdits sendOk).cody.registeredList
                = some ⟨rb.uri, rb.language_id, newSnap, rb.snapshot_version + 1⟩)))
    ∧ ((∀ rs2 : RunningCodyServer, c.server.as_authenticated ≠ .ok rs2) →
        (report_changes c rb bufId newSnap hostEdits sendOk).cody = c
          ∧ (report_changes c rb bufId newSnap hostEdits sendOk).sent = []) := by
  refine ⟨?_, ?_, ?_⟩
  · intro k v hv
    by_cases hfast : newSnap.version = rb.snapshot.version
    · have hcody : (report_changes c rb bufId newSnap hostEdits sendOk).cody = c := by
        simp [report_changes, hfast]
      rw [hcody]
      exact ⟨v, hv, le_refl _⟩
    · cases hA : c.server.as_authenticated with
      | error e =>
        have hcody : (report_changes c rb bufId newSnap hostEdits sendOk).cody = c := by
          simp [report_changes, hfast, hA]
        rw [hcody]
        exact ⟨v, hv, le_refl _⟩
      | ok rs =>
        have hcrun : c.server = .running rs := ((as_authenticated_ok_iff _ _).mp hA).1
        cases hlk : lookupBuf bufId rs.registered_buffers with
        | none =>
          have hcody : (report_changes c rb bufId newSnap hostEdits sendOk).cody = c := by
            simp [report_changes, hfast, hA, hlk]
          rw [hcody]
          exact ⟨v, hv, le_refl _⟩
        | some rbNow =>
          by_cases hemp : (computeContentChanges newSnap hostEdits).isEmpty
          · have hcody : (report_changes c rb bufId newSnap hostEdits sendOk).cody = c := by
              simp [report_changes, hfast, hA, hlk, hemp]
            rw [hcody]
            exact ⟨v, hv, le_refl _⟩
          · have hemp2 : (computeContentChanges newSnap hostEdits).isEmpty = false := by
              simpa using hemp
            have hcody : (report_changes c rb bufId newSnap hostEdits sendOk).cody.registeredList
                = updateBuf bufId ⟨rbNow.uri, rbNow.language_id, newSnap, rbNow.snapshot_version + 1⟩
                    rs.registered_buffers := by
              simp [report_changes, hfast, hA, hlk, hemp2, Cody.registeredList]
            rw [hcody]
            have hvrs : lookupBuf k rs.registered_buffers = some v := by
              rw [← hv]
              simp [Cody.registeredList, hcrun]
            by_cases hk : k = bufId
            · subst hk
              have hveq : v = rbNow := by
                rw [hvrs] at hlk
                injection hlk
              rw [lookupBuf_updateBuf_self, hvrs]
              subst hveq
              refine ⟨_, rfl, ?_⟩
              show v.snapshot_version ≤ v.snapshot_version + 1
              omega
            · rw [lookupBuf_updateBuf_ne bufId k _ hk, hvrs]
              exact ⟨v, rfl, le_refl _⟩
  · intro rs hcrun hauth hrb hver
    have hA : c.server.as_authenticated = .ok rs := (as_authenticated_ok_iff _ _).mpr ⟨hcrun, hauth⟩
    constructor
    · intro he
      subst he
      simp [report_changes, hver, hA, hrb, computeContentChanges]
    · intro hne
      have hempty : (computeContentChanges newSnap hostEdits).isEmpty = false := by
        cases hostEdits with
        | nil => exact absurd rfl hne
        | cons e t => rfl
      have hcody : (report_changes c rb bufId newSnap hostEdits sendOk).cody.registeredList
          = updateBuf bufId ⟨rb.uri, rb.language_id, newSnap, rb.snapshot_version + 1⟩
              rs.registered_buffers := by
        simp [report_changes, hver, hA, hrb, hempty, Cody.registeredList]
      rw [hcody, lookupBuf_updateBuf_self, hrb]
      rfl
  · intro hno
    by_cases hfast : newSnap.version = rb.snapshot.version
    · constructor <;> simp [report_changes, hfast]
    · cases hA : c.server.as_authenticated with
      | ok rs2 => exact absurd hA (hno rs2)
      | error e => constructor <;> simp [report_changes, hfast, hA]

theorem C4_version_monotonic_witness :
    (c4state.server = .running ⟨.authorized, [(4, c4rb)]⟩
      ∧ c4snap.version ≠ c4rb.snapshot.version)
    ∧ lookupBuf 4 (report_changes c4state c4rb 4 c4snap [c4edit] true).cody.registeredList
        = some ⟨"file:///c.txt", "plaintext", ⟨"Hello world", 1⟩, 1⟩ := by
  have h := ((C4_version_monotonic c4state c4rb 4 c4snap [c4edit] true).2.1
    ⟨.authorized, [(4, c4rb)]⟩ rfl rfl (by decide) (by decide)).2 (by decide)
  refine ⟨⟨rfl, by decide⟩, ?_⟩
  rw [h]
  decide

def c5state : Cody := ⟨.starting 0, []⟩

/-- C5 counterexample: a successful startup does not leave the session with
auth state SignedOut: the completion handler installs Running with SignedOut
and an empty table but then immediately applies the hard-coded signed-in
status (user "pjlast"), so the auth state observable after a successful
startup is Authorized, not SignedOut. -/
theorem C5_counterexample :
    (start_language_server_finish c5state (.ok ())).1.authStatus = some .authorized
      ∧ (start_language_server_finish c5state (.ok ())).1.authStatus ≠ some .signedOut := by
  constructor
  · decide
  · decide

/-- C5 amended: from Starting, a failed startup yields the Error state
carrying the failure message and sends nothing, and a failed startup is never
retried automatically — a settings re-evaluation with the feature enabled
leaves the Error state untouched, and only the explicit reinstall re-enters
Starting. A successful startup installs Running with an initially empty table
and auth SignedOut, but the startup task then immediately applies the
hard-coded signed-in status, leaving the session Authorized with every live
known document freshly registered at version 0 (one open notification each). -/
theorem C5_startup (c : Cody) (msg : String) (fresh : Nat)
    (hnd : (c.buffers.map Buffer.id).Nodup) :
    ((start_language_server_finish c (.error msg)).1.server = .error msg
      ∧ (start_language_server_finish c (.error msg)).2 = [])
    ∧ (c.server = .error msg → (enable_or_disable_cody c true fresh).server = .error msg)
    ∧ ((reinstall c fresh).server = .starting fresh)
    ∧ ((start_language_server_finish c (.ok ())).1.registeredList
        = (c.buffers.filter fun b => b.alive).map (fun b => (b.id, freshRB b))
      ∧ (start_language_server_finish c (.ok ())).1.authStatus = some .authorized
      ∧ (start_language_server_finish c (.ok ())).2
        = (c.buffers.filter fun b => b.alive).map (fun b => Msg.didOpen b.uri b.text)) := by
  refine ⟨⟨rfl, rfl⟩, ?_, rfl, ?_⟩
  · intro h
    simp [enable_or_disable_cody, h]
  · have hcore := sweep_open_core c.buffers hnd
    have hunfold : start_language_server_finish c (.ok ())
        = registerAll ⟨.running ⟨.authorized, []⟩, c.buffers.filter fun b => b.alive⟩
            (c.buffers.filter fun b => b.alive) := by
      simp [start_language_server_finish, update_sign_in_status, startupSignInStatus]
    rw [hunfold]
    exact ⟨hcore.1, hcore.2.2, hcore.2.1⟩

theorem C5_startup_witness :
    ((((⟨.error "boom", []⟩ : Cody).buffers.map Buffer.id).Nodup
      ∧ (⟨.error "boom", []⟩ : Cody).server = .error "boom")
    ∧ (enable_or_disable_cody ⟨.error "boom", []⟩ true 5).server = .error "boom") :=
  ⟨⟨by decide, rfl⟩, (C5_startup ⟨.error "boom", []⟩ "boom" 5 (by decide)).2.1 rfl⟩

/-- C8: for a registered document of a running session, a rename or
language-change event whose recomputed canonical URI or language tag differs
sends a close notification for the old URI immediately followed — with
nothing in between, inside one atomic handler — by an open notification for
the new URI carrying the full last-synced document content at the current
synced version, and updates the table entry in place (synced snapshot and
version unchanged); if neither the URI nor the language tag changed, nothing
is sent and the state is unchanged. Any change notification for the document
can only arise from a later handler invocation, so the close/open pair
precedes it. -/
theorem C8_identity_change (c : Cody) (rs : RunningCodyServer) (rb : RegisteredBuffer)
    (b : Buffer) (ev : BufferEvent) (hostEdits : List HostEdit) (sendOk : Bool)
    (hc : c.server = .running rs)
    (hrb : lookupBuf b.id rs.registered_buffers = some rb)
    (hev : ev = .fileHandleChanged ∨ ev = .languageChanged) :
    ((b.uri ≠ rb.uri ∨ b.language_id ≠ rb.language_id) →
        (handle_buffer_event c b ev hostEdits sendOk).2
            = [Msg.didClose rb.uri,
               Msg.didOpenItem b.uri b.language_id rb.snapshot_version rb.snapshot.text]
          ∧ lookupBuf b.id (handle_buffer_event c b ev hostEdits sendOk).1.registeredList
            = some ⟨b.uri, b.language_id, rb.snapshot, rb.snapshot_version⟩)
    ∧ ((b.uri = rb.uri ∧ b.language_id = rb.language_id) →
        handle_buffer_event c b ev hostEdits sendOk = (c, [])) := by
  constructor
  · intro hchg
    have hb2 : (b.uri != rb.uri || b.language_id != rb.language_id) = true := by
      rcases hchg with h | h <;> simp [h]
    constructor
    · rcases hev with hev | hev <;> subst hev <;>
        simp [handle_buffer_event, hc, hrb, hb2]
    · have hlist : (handle_buffer_event c b ev hostEdits sendOk).1.registeredList
          = updateBuf b.id ⟨b.uri, b.language_id, rb.snapshot, rb.snapshot_version⟩
              rs.registered_buffers := by
        rcases hev with hev | hev <;> subst hev <;>
          simp [handle_buffer_event, hc, hrb, hb2, Cody.registeredList]
      rw [hlist, lookupBuf_updateBuf_self, hrb]
      rfl
  · intro h
    have hb2 : (b.uri != rb.uri || b.language_id != rb.language_id) = false := by
      simp [h.1, h.2]
    rcases hev with hev | hev <;> subst hev <;>
      simp [handle_buffer_event, hc, hrb, hb2]

def c8rb : RegisteredBuffer := ⟨"file:///old.txt", "plaintext", ⟨"Hello world", 4⟩, 1⟩

def c8buf : Buffer := ⟨6, true, "file:///new.txt", "plaintext", "Hello world", 4⟩

def c8state : Cody := ⟨.running ⟨.authorized, [(6, c8rb)]⟩, [c8buf]⟩

theorem C8_identity_change_witness :
    (c8state.server = .running ⟨.authorized, [(6, c8rb)]⟩ ∧ c8buf.uri ≠ c8rb.uri)
    ∧ (handle_buffer_event c8state c8buf .fileHandleChanged [] true).2
        = [Msg.didClose "file:///old.txt",
           Msg.didOpenItem "file:///new.txt" "plaintext" 1 "Hello world"] := by
  have h := ((C8_identity_change c8state ⟨.authorized, [(6, c8rb)]⟩ c8rb c8buf
    .fileHandleChanged [] true rfl (by decide) (Or.inl rfl)).1 (Or.inl (by decide))).1
  refine ⟨⟨rfl, by decide⟩, ?_⟩
  rw [h]
  decide

/-- C9: accept_completion and discard_completions are guarded telemetry acks:
when the session is not running-and-authorized they fail with the guard error
while sending no message and leaving the state unchanged — the
authorization-error path changes no state and sends nothing; when authorized
they send exactly one fire-and-forget message to the remote keyed by the
completion id(s), and still touch no local completion state. -/
theorem C9_telemetry_acks (c : Cody) (comp : Completion) (comps : List Completion) :
    ((∀ rs : RunningCodyServer, c.server.as_authenticated ≠ .ok rs) →
        (∃ e, accept_completion c comp = (c, [], some e))
          ∧ ∃ e, discard_completions c comps = (c, [], some e))
    ∧ (∀ rs : RunningCodyServer, c.server.as_authenticated = .ok rs →
        accept_completion c comp = (c, [Msg.notifyAccepted comp.uuid], none)
          ∧ discard_completions c comps
            = (c, [Msg.notifyRejected (comps.map fun x => x.uuid)], none)) := by
  constructor
  · intro hno
    cases hA : c.server.as_authenticated with
    | ok rs => exact absurd hA (hno rs)
    | error e =>
      exact ⟨⟨e, by simp [accept_completion, hA]⟩, ⟨e, by simp [discard_completions, hA]⟩⟩
  · intro rs hA
    exact ⟨by simp [accept_completion, hA], by simp [discard_completions, hA]⟩

theorem C9_telemetry_acks_witness :
    (∃ e, accept_completion ⟨.disabled, []⟩ ⟨"id1", 0, 0, "txt"⟩ = (⟨.disabled, []⟩, [], some e))
      ∧ ∃ e, discard_completions ⟨.disabled, []⟩ [] = (⟨.disabled, []⟩, [], some e) :=
  (C9_telemetry_acks ⟨.disabled, []⟩ ⟨"id1", 0, 0, "txt"⟩ []).1
    (fun rs h => by simp [CodyServer.as_authenticated, CodyServer.as_running] at h)

/-- C10: a completion request (request_completions, shared by the primary and
the cycling flavor) inserts the buffer into the weak known-document set
before checking authorization, so even when the call fails because the
session is not running-and-authorized, the buffer has been recorded — a
member with its id is in the known set, from which a later sign-in sweep
registers it — and this known-set insertion is the only state change on the
error path: no message is sent and nothing else changes. -/
theorem C10_known_before_auth (c : Cody) (cycling : Bool) (b : Buffer) (pos : PointU)
    (hostEdits : List HostEdit) (sendOk : Bool)
    (hno : ∀ rs : RunningCodyServer, c.server.as_authenticated ≠ .ok rs) :
    (∃ e, request_completions c cycling b pos hostEdits sendOk
        = ({ c with buffers := insertKnown b c.buffers }, [], some e))
      ∧ ∃ x ∈ insertKnown b c.buffers, x.id = b.id := by
  have hreg : register_buffer c b = ({ c with buffers := insertKnown b c.buffers }, []) := by
    cases hs : c.server with
    | running rs =>
      cases hst : rs.sign_in_status with
      | authorized => exact absurd ((as_authenticated_ok_iff _ rs).mpr ⟨hs, hst⟩) (hno rs)
      | unauthorized => simp [register_buffer, hs, hst]
      | signingIn p t => simp [register_buffer, hs, hst]
      | signedOut => simp [register_buffer, hs, hst]
    | disabled => simp [register_buffer, hs]
    | starting t => simp [register_buffer, hs]
    | error e => simp [register_buffer, hs]
  have hmem : ∃ x ∈ insertKnown b c.buffers, x.id = b.id := by
    by_cases hany : (c.buffers.any fun x => x.id == b.id) = true
    · rcases List.any_eq_true.mp hany with ⟨x, hx, hxe⟩
      exact ⟨x, by simp [insertKnown, hany, hx], by simpa using hxe⟩
    · refine ⟨b, ?_, rfl⟩
      simp [insertKnown, hany]
  cases hA : c.server.as_authenticated with
  | ok rs => exact absurd hA (hno rs)
  | error e =>
    refine ⟨⟨e, ?_⟩, hmem⟩
    simp [request_completions, hreg, hA]

def c10buf : Buffer := ⟨9, true, "file:///x.txt", "plaintext", "xx", 0⟩

theorem C10_known_before_auth_witness :
    (∃ e, request_completions ⟨.disabled, []⟩ false c10buf ⟨0, 0⟩ [] true
        = (⟨.disabled, [c10buf]⟩, [], some e))
      ∧ ∃ x ∈ insertKnown c10buf [], x.id = c10buf.id :=
  C10_known_before_auth ⟨.disabled, []⟩ false c10buf ⟨0, 0⟩ [] true
    (fun rs h => by simp [CodyServer.as_authenticated, CodyServer.as_running] at h)
